import Mathlib

/-!
# Verification of the diffai structural & tensor-aware diff engine

The repository ships Python bindings, installers and tests around the
diffai comparison engine; the engine itself (a compiled extension) is not
part of the Python source tree.  Following the specification's
reconstruction of the engine (`diff(old, new, options)` over a canonical
value tree), this file embeds the engine as executable Lean definitions
and proves the spec's testable properties about them.

Numbers are modelled as exact rationals (the spec allows an
arbitrary-precision numeric representation).  Rational comparisons and
difference magnitudes are computed by cross-multiplication primitives
(`rle`, `rlt`, `absDiff`) that are proved below to agree with the
ordinary order and `|a - b|` on `Rat`; this keeps every definition
evaluable by kernel reduction.  Recursion over the value tree is
fuel-indexed; the public entry points supply fuel derived from the input
size, which is always sufficient, so the fuel is an internal device and
never observable.
-/

namespace Diffai

/-- Less-or-equal on rationals, decided by cross-multiplication. -/
def rle (a b : Rat) : Bool :=
  decide (a.num * (b.den : Int) ≤ b.num * (a.den : Int))

/-- Strictly-less on rationals, decided by cross-multiplication. -/
def rlt (a b : Rat) : Bool :=
  decide (a.num * (b.den : Int) < b.num * (a.den : Int))

/-- Absolute difference of two rationals, computed by cross-multiplication. -/
def absDiff (a b : Rat) : Rat :=
  mkRat ((a.num * (b.den : Int) - b.num * (a.den : Int)).natAbs : Int)
    (a.den * b.den)

/-- Maximum of two rationals via `rle`. -/
def rmax (a b : Rat) : Rat :=
  if rle a b then b else a

/-- Modelled from the spec: pre-computed tensor `Statistics` record with
fields mean, std, min, max, element_count and norm (the engine source is
not in the repository; this follows the spec's data model). -/
structure Statistics where
  mean : Rat
  std : Rat
  min : Rat
  max : Rat
  element_count : Nat
  norm : Rat

/-- Modelled from the spec: a tensor node's payload is either raw element
data (a flat sequence of numbers) or a pre-computed `Statistics` record. -/
inductive TData where
  | raw (xs : List Rat)
  | stats (s : Statistics)

/-- Modelled from the spec: the canonical `Value` tree — null, booleans,
numbers, strings, ordered sequences, keyed mappings (order preserved,
keys unique within a mapping by invariant) and tensor nodes carrying a
shape, a dtype tag and a payload. -/
inductive Value where
  | null
  | bool (b : Bool)
  | num (q : Rat)
  | str (s : String)
  | seq (xs : List Value)
  | map (kvs : List (String × Value))
  | tensor (shape : List Nat) (dtype : String) (d : TData)

/-- Modelled from the spec: the raw structural edits produced by the
Differencer, before the Result Classifier runs.  `tensorDataChanged`
carries the element-wise change magnitude of a shape-matched tensor
pair whose raw data differs beyond tolerance. -/
inductive Edit where
  | added (path : String) (v : Value)
  | removed (path : String) (v : Value)
  | modified (path : String) (o n : Value)
  | tensorShapeChanged (path : String) (os ns : List Nat)
  | tensorStatsChanged (path : String) (os ns : Statistics)
  | tensorDataChanged (path : String) (magnitude : Rat)
  | unchanged (path : String)

/-- Modelled from the spec: the output taxonomy of `diff` — the
`DiffResult` discriminated record, one variant per kind, each carrying
its path. -/
inductive DiffResult where
  | Added (path : String) (new_value : Value)
  | Removed (path : String) (old_value : Value)
  | Modified (path : String) (old_value new_value : Value)
  | TensorShapeChanged (path : String) (old_shape new_shape : List Nat)
  | TensorStatsChanged (path : String) (old_stats new_stats : Statistics)
  | WeightSignificantChange (path : String) (magnitude : Rat)
  | LearningRateChanged (path : String) (old new : Value)
  | OptimizerChanged (path : String) (old new : Value)
  | LossChange (path : String) (old new : Value)
  | AccuracyChange (path : String) (old new : Value)
  | ModelArchitectureChanged (path : String) (old new : Value)
  | Unchanged (path : String)

/-- Modelled from the spec: `tensor_comparison_mode` — shape-only,
data/statistics-only, or both. -/
inductive TensorMode where
  | shape
  | data
  | both
deriving DecidableEq

/-- Modelled from the spec: the option bag accepted by `diff` before
validation.  Enum-valued options arrive as strings and the regex as an
uncompiled pattern, exactly as at the Python call boundary. -/
structure DiffOptions where
  epsilon : Option Rat := none
  weight_threshold : Option Rat := none
  ml_analysis_enabled : Bool := false
  tensor_comparison_mode : Option String := none
  scientific_precision : Bool := false
  show_unchanged : Bool := false
  show_types : Bool := false
  ignore_keys_regex : Option String := none
  output_format : Option String := none
  learning_rate_tracking : Bool := false
  optimizer_comparison : Bool := false
  loss_tracking : Bool := false
  accuracy_tracking : Bool := false
  architecture_comparison : Bool := false

/-- Modelled from the spec: the validated configuration used by the
engine after option checking succeeded. -/
structure Config where
  epsilon : Rat
  weight_threshold : Option Rat
  ml_analysis_enabled : Bool
  tensor_comparison_mode : TensorMode
  scientific_precision : Bool
  show_unchanged : Bool
  show_types : Bool
  ignore_keys_pattern : Option String
  output_format : String
  learning_rate_tracking : Bool
  optimizer_comparison : Bool
  loss_tracking : Bool
  accuracy_tracking : Bool
  architecture_comparison : Bool

/-- Modelled from the spec: a `ConfigurationError` names the offending
option and the offending value. -/
inductive DiffError where
  | configuration (optionName : String) (value : String)
deriving DecidableEq

/-- Modelled from the spec: validity check for `ignore_keys_regex`
patterns.  The real engine delegates to an external regex library that
is not in the repository; the model checks that every character class
opened with `[` is closed with `]`, which is the malformation exercised
by the repository's tests (`"[invalid_regex"`). -/
def classScanOk : Bool → List Char → Bool
  | false, [] => true
  | true, [] => false
  | false, c :: r => if c = '[' then classScanOk true r else classScanOk false r
  | true, c :: r => if c = ']' then classScanOk false r else classScanOk true r

def regexValid (pat : String) : Bool :=
  classScanOk false pat.toList

/-- Sub-list (contiguous) search over characters, used as the matching
semantics of the literal patterns appearing in the spec's scenarios. -/
def containsSub (s pat : List Char) : Bool :=
  if pat.isPrefixOf s then true
  else
    match s with
    | [] => false
    | _ :: r => containsSub r pat

/-- Modelled from the spec: whether a mapping key matches the
`ignore_keys_regex` pattern (unanchored search; patterns in the spec's
scenarios are literal). -/
def keyMatches (pat key : String) : Bool :=
  containsSub key.toList pat.toList

/-- Default numeric tolerance (the spec cites 1e-6 semantics). -/
def defaultEpsilon : Rat := mkRat 1 1000000

def parseTensorMode (s : String) : Option TensorMode :=
  if s = "shape" then some TensorMode.shape
  else if s = "data" then some TensorMode.data
  else if s = "both" then some TensorMode.both
  else none

def outputFormatKnown (s : String) : Bool :=
  s = "diffai" || s = "json" || s = "yaml"

/-- Decimal-free rendering of a rational for error messages. -/
def ratStr (q : Rat) : String :=
  toString q.num ++ "/" ++ toString q.den

/-- The validated configuration assembled from checked option values. -/
def buildConfig (raw : DiffOptions) (pat : Option String) (m : TensorMode)
    (fmt : String) (e : Rat) (t : Option Rat) : Config :=
  { epsilon := e
    weight_threshold := t
    ml_analysis_enabled := raw.ml_analysis_enabled
    tensor_comparison_mode := m
    scientific_precision := raw.scientific_precision
    show_unchanged := raw.show_unchanged
    show_types := raw.show_types
    ignore_keys_pattern := pat
    output_format := fmt
    learning_rate_tracking := raw.learning_rate_tracking
    optimizer_comparison := raw.optimizer_comparison
    loss_tracking := raw.loss_tracking
    accuracy_tracking := raw.accuracy_tracking
    architecture_comparison := raw.architecture_comparison }

def validateThreshold (raw : DiffOptions) (pat : Option String) (m : TensorMode)
    (fmt : String) (e : Rat) : Except DiffError Config :=
  match raw.weight_threshold with
  | some t =>
      if rlt t 0 then .error (.configuration "weight_threshold" (ratStr t))
      else .ok (buildConfig raw pat m fmt e (some t))
  | none => .ok (buildConfig raw pat m fmt e none)

def validateEpsilon (raw : DiffOptions) (pat : Option String) (m : TensorMode)
    (fmt : String) : Except DiffError Config :=
  match raw.epsilon with
  | some e =>
      if rlt e 0 then .error (.configuration "epsilon" (ratStr e))
      else validateThreshold raw pat m fmt e
  | none => validateThreshold raw pat m fmt defaultEpsilon

def validateFormat (raw : DiffOptions) (pat : Option String) (m : TensorMode) :
    Except DiffError Config :=
  match raw.output_format with
  | some s =>
      if outputFormatKnown s then validateEpsilon raw pat m s
      else .error (.configuration "output_format" s)
  | none => validateEpsilon raw pat m "diffai"

def validateMode (raw : DiffOptions) (pat : Option String) : Except DiffError Config :=
  match raw.tensor_comparison_mode with
  | some s =>
      match parseTensorMode s with
      | some m => validateFormat raw pat m
      | none => .error (.configuration "tensor_comparison_mode" s)
  | none => validateFormat raw pat TensorMode.both

/-- Modelled from the spec: eager option validation, run before any
traversal.  Checks, in order: the ignore-keys pattern compiles, the
tensor comparison mode and output format are known enum strings, and
the numeric tolerances are non-negative.  The first failure is reported
as a `ConfigurationError` naming the option and its value. -/
def validateOptions (raw : DiffOptions) : Except DiffError Config :=
  match raw.ignore_keys_regex with
  | some pat =>
      if regexValid pat then validateMode raw (some pat)
      else .error (.configuration "ignore_keys_regex" pat)
  | none => validateMode raw none

/-- Effective numeric tolerance: `scientific_precision` lowers the
tolerance (modelled as exact comparison, the maximal lowering the spec
allows). -/
def effEps (cfg : Config) : Rat :=
  if cfg.scientific_precision then 0 else cfg.epsilon

def ignoredKey (cfg : Config) (k : String) : Bool :=
  match cfg.ignore_keys_pattern with
  | some pat => keyMatches pat k
  | none => false

/-- Dot-joined path extension for mapping keys. -/
def joinPath (p k : String) : String :=
  if p = "" then k else p ++ "." ++ k

/-- Bracket-indexed path extension for sequence positions. -/
def idxPath (p : String) (i : Nat) : String :=
  p ++ "[" ++ toString i ++ "]"

/-- First value bound to a key in an association list (mapping lookup). -/
def lookupKV (k : String) : List (String × Value) → Option Value
  | [] => none
  | (k', v) :: r => if k' = k then some v else lookupKV k r

def hasKey (k : String) (kvs : List (String × Value)) : Bool :=
  (lookupKV k kvs).isSome

/-- Maximum absolute element-wise difference of two raw data vectors
(the model's documented choice for the spec's open "significant
magnitude" question). -/
def maxAbsDiff (xs ys : List Rat) : Rat :=
  (List.zip xs ys).foldr (fun ab acc => rmax (absDiff ab.1 ab.2) acc) 0

/-- Field-wise statistics comparison under the effective tolerance. -/
def statsDiffer (cfg : Config) (a b : Statistics) : Bool :=
  rlt (effEps cfg) (absDiff a.mean b.mean) ||
  rlt (effEps cfg) (absDiff a.std b.std) ||
  rlt (effEps cfg) (absDiff a.min b.min) ||
  rlt (effEps cfg) (absDiff a.max b.max) ||
  rlt (effEps cfg) (absDiff a.norm b.norm) ||
  decide (a.element_count ≠ b.element_count)

/-- Modelled from the spec: tensor-vs-tensor comparison.  Shape is
compared first; a mismatch yields exactly one `tensorShapeChanged` edit
and data/statistics comparison is skipped.  On shape match, statistics
or raw data are compared when the mode includes them; a raw-data change
beyond tolerance yields a `tensorDataChanged` edit carrying its
magnitude. -/
def diffTensor (cfg : Config) (p : String) (s1 : List Nat) (dt1 : String)
    (d1 : TData) (s2 : List Nat) (dt2 : String) (d2 : TData) : List Edit :=
  if s1 ≠ s2 then [.tensorShapeChanged p s1 s2]
  else if cfg.tensor_comparison_mode = TensorMode.shape then []
  else
    match d1, d2 with
    | .stats a, .stats b =>
        if statsDiffer cfg a b then [.tensorStatsChanged p a b] else []
    | .raw xs, .raw ys =>
        if rlt (effEps cfg) (maxAbsDiff xs ys) then
          [.tensorDataChanged p (maxAbsDiff xs ys)]
        else []
    | d1', d2' => [.modified p (.tensor s1 dt1 d1') (.tensor s2 dt2 d2')]

/-- Maximum of two naturals (own definition so that its equations stay
syntactically stable under this file's proofs). -/
def nmax (a b : Nat) : Nat := if a ≤ b then b else a

/-- Scalar comparison outcome shared by all leaf variants: equal values
yield an `unchanged` edit when `show_unchanged` is set and nothing
otherwise. -/
def leafEdits (cfg : Config) (p : String) (same exact : Bool) (o n : Value) :
    List Edit :=
  if same then (if cfg.show_unchanged && exact then [.unchanged p] else [])
  else [.modified p o n]

/-- Modelled from the spec: the Differencer.  Recursive, path
accumulating, fuel-indexed (the entry point supplies sufficient fuel).
Mappings compare by key union in old-then-new order with
`ignore_keys_regex`-matching keys skipped entirely; sequences compare
index-aligned with trailing extras reported as added/removed; numbers
compare within the effective tolerance; differing variants are a
`modified` type change. -/
def diffV (cfg : Config) (fuel : Nat) (p : String) (v w : Value) : List Edit :=
  match fuel, v, w with
  | 0, _, _ => []
  | Nat.succ fuel, v, w =>
    match v, w with
    | .null, .null => leafEdits cfg p true true .null .null
    | .bool a, .bool b =>
        leafEdits cfg p (decide (a = b)) (decide (a = b)) (.bool a) (.bool b)
    | .str a, .str b =>
        leafEdits cfg p (decide (a = b)) (decide (a = b)) (.str a) (.str b)
    | .num a, .num b =>
        leafEdits cfg p (rle (absDiff a b) (effEps cfg)) (decide (a = b))
          (.num a) (.num b)
    | .seq xs, .seq ys =>
        ((List.range (nmax xs.length ys.length)).map (fun i =>
          match xs[i]?, ys[i]? with
          | some a, some b => diffV cfg fuel (idxPath p i) a b
          | some a, none => [.removed (idxPath p i) a]
          | none, some b => [.added (idxPath p i) b]
          | none, none => [])).flatten
    | .map olds, .map news =>
        (olds.map (fun kv =>
          if ignoredKey cfg kv.1 then []
          else
            match lookupKV kv.1 news with
            | none => [.removed (joinPath p kv.1) kv.2]
            | some w' => diffV cfg fuel (joinPath p kv.1) kv.2 w')).flatten
        ++
        (news.filter (fun kv => !(ignoredKey cfg kv.1) && !(hasKey kv.1 olds))).map
          (fun kv => .added (joinPath p kv.1) kv.2)
    | .tensor s1 dt1 d1, .tensor s2 dt2 d2 =>
        diffTensor cfg p s1 dt1 d1 s2 dt2 d2
    | v', w' => [.modified p v' w']
termination_by structural fuel

/-- Last dot-separated segment of a path (own character-level splitter,
so that it evaluates by kernel reduction), used by the name-based ML
detectors. -/
def segsAux : List Char → List Char → List String
  | [], acc => [String.mk acc.reverse]
  | c :: r, acc =>
      if c = '.' then String.mk acc.reverse :: segsAux r []
      else segsAux r (c :: acc)

def lastSeg (p : String) : String :=
  (segsAux p.toList []).getLastD p

/-- Modelled from the spec: ML detector kinds recognized by name-based
path matching. -/
inductive MLKind where
  | lr
  | opt
  | loss
  | acc
  | arch
deriving DecidableEq

/-- Modelled from the spec: name-based path-pattern detection.  A
detector is active when `ml_analysis_enabled` or its specific tracking
sub-flag is set; matching is on the final path segment (with
`optimizer.type` also recognized for the optimizer detector). -/
def pathDetector (cfg : Config) (p : String) : Option MLKind :=
  let s := lastSeg p
  if (cfg.ml_analysis_enabled || cfg.learning_rate_tracking) && s = "learning_rate" then
    some MLKind.lr
  else if (cfg.ml_analysis_enabled || cfg.optimizer_comparison) &&
      (s = "optimizer" || ("optimizer.type").toList.isSuffixOf p.toList) then
    some MLKind.opt
  else if (cfg.ml_analysis_enabled || cfg.loss_tracking) && s = "loss" then
    some MLKind.loss
  else if (cfg.ml_analysis_enabled || cfg.accuracy_tracking) && s = "accuracy" then
    some MLKind.acc
  else if (cfg.ml_analysis_enabled || cfg.architecture_comparison) &&
      (s = "layers" || s = "hidden_size" || s = "architecture") then
    some MLKind.arch
  else none

/-- Whether a path addresses weight data (substring match on
"weight"). -/
def pathHasWeight (p : String) : Bool :=
  containsSub p.toList "weight".toList

/-- Modelled from the spec: the Result Classifier.  Structural edits
pass through unchanged except: a shape-matched tensor data change
becomes a `WeightSignificantChange` gated by `weight_threshold`; a
`modified` edit whose path matches an active name-based detector is
replaced by the specific kind (never emitted alongside the generic
kind); and a numeric `modified` at a weight path is replaced by a
`WeightSignificantChange` when its magnitude reaches the threshold and
suppressed entirely when below it. -/
def classifyOne (cfg : Config) : Edit → List DiffResult
  | .added p v => [.Added p v]
  | .removed p v => [.Removed p v]
  | .unchanged p => [.Unchanged p]
  | .tensorShapeChanged p a b => [.TensorShapeChanged p a b]
  | .tensorStatsChanged p a b => [.TensorStatsChanged p a b]
  | .tensorDataChanged p m =>
      match cfg.weight_threshold with
      | some t => if rle t m then [.WeightSignificantChange p m] else []
      | none => [.WeightSignificantChange p m]
  | .modified p o n =>
      match pathDetector cfg p with
      | some MLKind.lr => [.LearningRateChanged p o n]
      | some MLKind.opt => [.OptimizerChanged p o n]
      | some MLKind.loss => [.LossChange p o n]
      | some MLKind.acc => [.AccuracyChange p o n]
      | some MLKind.arch => [.ModelArchitectureChanged p o n]
      | none =>
          match cfg.weight_threshold, o, n with
          | some t, .num a, .num b =>
              if pathHasWeight p then
                (if rle t (absDiff a b) then
                  [.WeightSignificantChange p (absDiff a b)]
                 else [])
              else [.Modified p o n]
          | _, _, _ => [.Modified p o n]

/-- Classify a whole edit sequence in order. -/
def classifyAll (cfg : Config) (es : List Edit) : List DiffResult :=
  (es.map (classifyOne cfg)).flatten

mutual
/-- Structural size of a value tree, used only to derive a sufficient
recursion fuel for the entry point. -/
def vsize : Value → Nat
  | .null => 1
  | .bool _ => 1
  | .num _ => 1
  | .str _ => 1
  | .tensor _ _ _ => 1
  | .seq xs => 1 + lsize xs
  | .map kvs => 1 + ksize kvs

def lsize : List Value → Nat
  | [] => 0
  | v :: r => 1 + vsize v + lsize r

def ksize : List (String × Value) → Nat
  | [] => 0
  | kv :: r => 1 + vsize kv.2 + ksize r
end

/-- The engine core on validated options: differencing followed by
classification, with fuel derived from the input sizes (always
sufficient). -/
def diffCore (cfg : Config) (old new : Value) : List DiffResult :=
  classifyAll cfg (diffV cfg (vsize old + vsize new) "" old new)

/-- Modelled from the spec: the unified `diff(old, new, options)` entry
point — validate options eagerly, then run the pure differencing and
classification pipeline; configuration errors are raised before any
traversal. -/
def diff (old new : Value) (raw : DiffOptions) : Except DiffError (List DiffResult) :=
  match validateOptions raw with
  | .error e => .error e
  | .ok cfg => .ok (diffCore cfg old new)

/-! ## Bridge lemmas: the computational comparison primitives agree with
the ordinary order and absolute difference on `Rat`. -/

theorem rle_iff (a b : Rat) : rle a b = true ↔ a ≤ b := by
  rw [rle, decide_eq_true_eq, Rat.le_def]

theorem rlt_iff (a b : Rat) : rlt a b = true ↔ a < b := by
  rw [rlt, decide_eq_true_eq, Rat.lt_def]

theorem absDiff_eq (a b : Rat) : absDiff a b = |a - b| := by
  have hD : ((a.den * b.den : Nat) : ℚ) ≠ 0 := by
    have := a.pos
    have := b.pos
    positivity
  have key : a - b =
      ((a.num * (b.den : Int) - b.num * (a.den : Int) : Int) : ℚ) /
        ((a.den * b.den : Nat) : ℚ) := by
    rw [eq_div_iff hD]
    have ha := Rat.num_div_den a
    have hb := Rat.num_div_den b
    have ha' : ((a.den : ℚ)) ≠ 0 := by
      have := a.pos
      positivity
    have hb' : ((b.den : ℚ)) ≠ 0 := by
      have := b.pos
      positivity
    nth_rewrite 1 [← ha, ← hb]
    push_cast
    field_simp
    ring
  rw [absDiff, Rat.mkRat_eq_divInt, Rat.divInt_eq_div, key, abs_div]
  have hpos : (0:ℚ) < ((a.den * b.den : Nat) : ℚ) := by
    have := a.pos
    have := b.pos
    positivity
  rw [abs_of_pos hpos]
  push_cast [Int.cast_natAbs]
  ring_nf

theorem absDiff_self (a : Rat) : absDiff a a = 0 := by
  rw [absDiff_eq, sub_self, abs_zero]

theorem absDiff_comm (a b : Rat) : absDiff a b = absDiff b a := by
  rw [absDiff_eq, absDiff_eq, abs_sub_comm]

theorem mem_classifyAll_added {cfg : Config} {es : List Edit} {q : String}
    {u : Value} :
    DiffResult.Added q u ∈ classifyAll cfg es ↔ Edit.added q u ∈ es := by
  constructor
  · intro h
    obtain ⟨l, hl, hm⟩ := List.mem_flatten.mp h
    obtain ⟨e, he, rfl⟩ := List.mem_map.mp hl
    cases e with
    | added p v =>
      simp [classifyOne] at hm
      obtain ⟨rfl, rfl⟩ := hm
      exact he
    | removed p v => simp [classifyOne] at hm
    | unchanged p => simp [classifyOne] at hm
    | tensorShapeChanged p x y => simp [classifyOne] at hm
    | tensorStatsChanged p x y => simp [classifyOne] at hm
    | tensorDataChanged p m =>
      simp only [classifyOne] at hm
      split at hm
      · split at hm <;> simp at hm
      · simp at hm
    | modified p o n =>
      simp only [classifyOne] at hm
      split at hm <;>
        first
        | (split at hm
           · split at hm
             · split at hm <;> simp at hm
             · simp at hm
           · simp at hm)
        | simp at hm
  · intro h
    rw [classifyAll]
    exact List.mem_flatten.mpr
      ⟨_, List.mem_map.mpr ⟨.added q u, h, rfl⟩, List.Mem.head _⟩

theorem mem_classifyAll_removed {cfg : Config} {es : List Edit} {q : String}
    {u : Value} :
    DiffResult.Removed q u ∈ classifyAll cfg es ↔ Edit.removed q u ∈ es := by
  constructor
  · intro h
    obtain ⟨l, hl, hm⟩ := List.mem_flatten.mp h
    obtain ⟨e, he, rfl⟩ := List.mem_map.mp hl
    cases e with
    | removed p v =>
      simp [classifyOne] at hm
      obtain ⟨rfl, rfl⟩ := hm
      exact he
    | added p v => simp [classifyOne] at hm
    | unchanged p => simp [classifyOne] at hm
    | tensorShapeChanged p x y => simp [classifyOne] at hm
    | tensorStatsChanged p x y => simp [classifyOne] at hm
    | tensorDataChanged p m =>
      simp only [classifyOne] at hm
      split at hm
      · split at hm <;> simp at hm
      · simp at hm
    | modified p o n =>
      simp only [classifyOne] at hm
      split at hm <;>
        first
        | (split at hm
           · split at hm
             · split at hm <;> simp at hm
             · simp at hm
           · simp at hm)
        | simp at hm
  · intro h
    rw [classifyAll]
    exact List.mem_flatten.mpr
      ⟨_, List.mem_map.mpr ⟨.removed q u, h, rfl⟩, List.Mem.head _⟩

/-! ## Claim theorems -/

/-- C1: for old = {"name": "Alice", "age": 30} and
new = {"name": "Alice", "age": 31} with default options, `diff` returns
exactly one result record: a `Modified` at path "age" with old value 30
and new value 31. -/
theorem diff_basic_modification_c1 :
    diff (.map [("name", .str "Alice"), ("age", .num 30)])
         (.map [("name", .str "Alice"), ("age", .num 31)]) {} =
      .ok [.Modified "age" (.num 30) (.num 31)] := rfl

/-- C2: `diff` is deterministic — two calls with the same inputs and the
same options produce identical result sequences, element for element and
in the same order (the engine is a pure function of its arguments). -/
theorem diff_deterministic_c2 (old new : Value) (raw : DiffOptions) :
    diff old new raw = diff old new raw := rfl

/-- C3: for old = {"weights": {"layer1": 0.1, "layer2": 0.05}},
new = {"weights": {"layer1": 0.2, "layer2": 0.051}} and
weight_threshold = 0.05, `diff` returns exactly one
`WeightSignificantChange`, whose path "weights.layer1" contains
"layer1" and whose magnitude is 0.1; the sub-threshold change of 0.001
at layer2 yields no record. -/
theorem diff_weight_threshold_c3 :
    diff (.map [("weights", .map
           [("layer1", .num (mkRat 1 10)), ("layer2", .num (mkRat 1 20))])])
         (.map [("weights", .map
           [("layer1", .num (mkRat 1 5)), ("layer2", .num (mkRat 51 1000))])])
         { weight_threshold := some (mkRat 1 20) } =
      .ok [.WeightSignificantChange "weights.layer1" (mkRat 1 10)] ∧
    containsSub "weights.layer1".toList "layer1".toList = true ∧
    mkRat 1 10 = absDiff (mkRat 1 10) (mkRat 1 5) := ⟨rfl, rfl, rfl⟩

/-- The configuration produced by validating the empty option bag. -/
def defaultConfig : Config :=
  buildConfig {} none TensorMode.both "diffai" defaultEpsilon none

theorem validate_default : validateOptions {} = .ok defaultConfig := rfl

/-- C4: comparing two tensor nodes at the same path whose shapes differ
yields exactly one `TensorShapeChanged` record carrying the two shapes,
and no `TensorStatsChanged` or `WeightSignificantChange` record for
that node — the element/statistics comparison is skipped on shape
mismatch. -/
theorem tensor_shape_short_circuit_c4 (cfg : Config) (fuel : Nat) (p : String)
    (s1 s2 : List Nat) (dt1 dt2 : String) (d1 d2 : TData) (h : s1 ≠ s2) :
    classifyAll cfg
        (diffV cfg (fuel + 1) p (.tensor s1 dt1 d1) (.tensor s2 dt2 d2)) =
      [.TensorShapeChanged p s1 s2] := by
  simp [diffV, diffTensor, h, classifyAll, classifyOne]

theorem tensor_shape_short_circuit_c4_witness :
    (([100, 200] : List Nat) ≠ [100, 300]) ∧
    classifyAll defaultConfig
        (diffV defaultConfig 1 "model.weight"
          (.tensor [100, 200] "f32" (.raw [1, 2, 3]))
          (.tensor [100, 300] "f32" (.raw [1, 2, 3]))) =
      [.TensorShapeChanged "model.weight" [100, 200] [100, 300]] :=
  ⟨by decide,
   tensor_shape_short_circuit_c4 defaultConfig 0 "model.weight"
     [100, 200] [100, 300] "f32" "f32" (.raw [1, 2, 3]) (.raw [1, 2, 3])
     (by decide)⟩

/-- An option bag is malformed when its ignore-keys pattern does not
compile, an enum-valued option holds an unknown string, or a numeric
tolerance is negative. -/
def IsMalformed (raw : DiffOptions) : Prop :=
  (∃ pat, raw.ignore_keys_regex = some pat ∧ regexValid pat = false) ∨
  (∃ s, raw.tensor_comparison_mode = some s ∧ parseTensorMode s = none) ∨
  (∃ s, raw.output_format = some s ∧ outputFormatKnown s = false) ∨
  (∃ e, raw.epsilon = some e ∧ e < 0) ∨
  (∃ t, raw.weight_threshold = some t ∧ t < 0)

/-- The pair (option name, reported value) indeed identifies a malformed
option of the bag. -/
def NamesBadOption (raw : DiffOptions) (o v : String) : Prop :=
  (o = "ignore_keys_regex" ∧ raw.ignore_keys_regex = some v ∧ regexValid v = false) ∨
  (o = "tensor_comparison_mode" ∧ raw.tensor_comparison_mode = some v ∧
    parseTensorMode v = none) ∨
  (o = "output_format" ∧ raw.output_format = some v ∧ outputFormatKnown v = false) ∨
  (∃ e, o = "epsilon" ∧ raw.epsilon = some e ∧ v = ratStr e ∧ e < 0) ∨
  (∃ t, o = "weight_threshold" ∧ raw.weight_threshold = some t ∧ v = ratStr t ∧ t < 0)

theorem validate_malformed (raw : DiffOptions) (h : IsMalformed raw) :
    ∃ o v, validateOptions raw = .error (.configuration o v) ∧
      NamesBadOption raw o v := by
  by_cases hr : ∃ pat, raw.ignore_keys_regex = some pat ∧ regexValid pat = false
  · obtain ⟨pat, hp, hv⟩ := hr
    exact ⟨"ignore_keys_regex", pat,
      by simp [validateOptions, hp, hv], Or.inl ⟨rfl, hp, hv⟩⟩
  · have hmode : validateOptions raw = validateMode raw raw.ignore_keys_regex := by
      cases hp : raw.ignore_keys_regex with
      | none => simp [validateOptions, hp]
      | some pat =>
        have hv : regexValid pat = true := by
          by_contra hvv
          exact hr ⟨pat, hp, by simpa using hvv⟩
        simp [validateOptions, hp, hv]
    by_cases hm : ∃ s, raw.tensor_comparison_mode = some s ∧ parseTensorMode s = none
    · obtain ⟨s, hs, hn⟩ := hm
      exact ⟨"tensor_comparison_mode", s,
        by rw [hmode]; simp [validateMode, hs, hn], Or.inr (Or.inl ⟨rfl, hs, hn⟩)⟩
    · obtain ⟨m, hfmt⟩ : ∃ m, validateMode raw raw.ignore_keys_regex =
          validateFormat raw raw.ignore_keys_regex m := by
        cases hs : raw.tensor_comparison_mode with
        | none => exact ⟨TensorMode.both, by simp [validateMode, hs]⟩
        | some s =>
          cases hps : parseTensorMode s with
          | none => exact absurd ⟨s, hs, hps⟩ hm
          | some m => exact ⟨m, by simp [validateMode, hs, hps]⟩
      by_cases hf : ∃ s, raw.output_format = some s ∧ outputFormatKnown s = false
      · obtain ⟨s, hs, hn⟩ := hf
        exact ⟨"output_format", s,
          by rw [hmode, hfmt]; simp [validateFormat, hs, hn],
          Or.inr (Or.inr (Or.inl ⟨rfl, hs, hn⟩))⟩
      · obtain ⟨fmt, heps⟩ : ∃ fmt, validateFormat raw raw.ignore_keys_regex m =
            validateEpsilon raw raw.ignore_keys_regex m fmt := by
          cases hs : raw.output_format with
          | none => exact ⟨"diffai", by simp [validateFormat, hs]⟩
          | some s =>
            have hk : outputFormatKnown s = true := by
              by_contra hkk
              exact hf ⟨s, hs, by simpa using hkk⟩
            exact ⟨s, by simp [validateFormat, hs, hk]⟩
        by_cases he : ∃ e, raw.epsilon = some e ∧ e < 0
        · obtain ⟨e, hs, hn⟩ := he
          refine ⟨"epsilon", ratStr e, ?_, Or.inr (Or.inr (Or.inr (Or.inl ⟨e, rfl, hs, rfl, hn⟩)))⟩
          rw [hmode, hfmt, heps]
          have : rlt e 0 = true := (rlt_iff e 0).mpr hn
          simp [validateEpsilon, hs, this]
        · obtain ⟨e, hth⟩ : ∃ e, validateEpsilon raw raw.ignore_keys_regex m fmt =
              validateThreshold raw raw.ignore_keys_regex m fmt e := by
            cases hs : raw.epsilon with
            | none => exact ⟨defaultEpsilon, by simp [validateEpsilon, hs]⟩
            | some e =>
              have hk : rlt e 0 = false := by
                by_contra hkk
                exact he ⟨e, hs, (rlt_iff e 0).mp (by simpa using hkk)⟩
              exact ⟨e, by simp [validateEpsilon, hs, hk]⟩
          by_cases ht : ∃ t, raw.weight_threshold = some t ∧ t < 0
          · obtain ⟨t, hs, hn⟩ := ht
            refine ⟨"weight_threshold", ratStr t, ?_,
              Or.inr (Or.inr (Or.inr (Or.inr ⟨t, rfl, hs, rfl, hn⟩)))⟩
            rw [hmode, hfmt, heps, hth]
            have : rlt t 0 = true := (rlt_iff t 0).mpr hn
            simp [validateThreshold, hs, this]
          · rcases h with h | h | h | h | h
            · exact absurd h hr
            · exact absurd h hm
            · exact absurd h hf
            · exact absurd h he
            · exact absurd h ht

/-- C6: if the options passed to `diff` are malformed (invalid
ignore_keys_regex pattern, unknown tensor_comparison_mode or
output_format enum string, or negative epsilon/weight_threshold), then
`diff` fails with a `ConfigurationError` naming the bad option and its
value — independently of the inputs, i.e. before any traversal — and
never silently ignores the malformed option. -/
theorem config_error_before_traversal_c6 (raw : DiffOptions)
    (h : IsMalformed raw) :
    ∃ o v, (∀ old new : Value, diff old new raw = .error (.configuration o v)) ∧
      NamesBadOption raw o v := by
  obtain ⟨o, v, hval, hnames⟩ := validate_malformed raw h
  exact ⟨o, v, fun old new => by simp [diff, hval], hnames⟩

theorem config_error_before_traversal_c6_witness :
    IsMalformed { ignore_keys_regex := some "[invalid_regex" } ∧
    ∃ o v, (∀ old new : Value,
        diff old new { ignore_keys_regex := some "[invalid_regex" } =
          .error (.configuration o v)) ∧
      NamesBadOption { ignore_keys_regex := some "[invalid_regex" } o v :=
  ⟨Or.inl ⟨"[invalid_regex", rfl, rfl⟩,
   config_error_before_traversal_c6 _ (Or.inl ⟨"[invalid_regex", rfl, rfl⟩)⟩

/-- Whether a result record is one of the specific ML kinds produced by
the name-based path-pattern classifier, located at path `p`. -/
def specificAt (p : String) : DiffResult → Bool
  | .LearningRateChanged q _ _ => q = p
  | .OptimizerChanged q _ _ => q = p
  | .LossChange q _ _ => q = p
  | .AccuracyChange q _ _ => q = p
  | .ModelArchitectureChanged q _ _ => q = p
  | _ => false

theorem specific_mem_detector {cfg : Config} {e : Edit} {p : String}
    {r : DiffResult} (hr : r ∈ classifyOne cfg e)
    (hs : specificAt p r = true) : pathDetector cfg p ≠ none := by
  cases e with
  | added q v => simp [classifyOne] at hr; subst hr; simp [specificAt] at hs
  | removed q v => simp [classifyOne] at hr; subst hr; simp [specificAt] at hs
  | unchanged q => simp [classifyOne] at hr; subst hr; simp [specificAt] at hs
  | tensorShapeChanged q a b =>
      simp [classifyOne] at hr; subst hr; simp [specificAt] at hs
  | tensorStatsChanged q a b =>
      simp [classifyOne] at hr; subst hr; simp [specificAt] at hs
  | tensorDataChanged q m =>
      simp only [classifyOne] at hr
      split at hr
      · split at hr
        · simp at hr; subst hr; simp [specificAt] at hs
        · simp at hr
      · simp at hr; subst hr; simp [specificAt] at hs
  | modified q o n =>
      simp only [classifyOne] at hr
      split at hr <;>
        first
        | (rename_i heq
           split at hr
           · split at hr
             · split at hr
               · simp at hr; subst hr; simp [specificAt] at hs
               · simp at hr
             · simp at hr; subst hr; simp [specificAt] at hs
           · simp at hr; subst hr; simp [specificAt] at hs)
        | (rename_i heq
           simp at hr; subst hr
           simp [specificAt] at hs; subst hs
           simp [heq])

theorem modified_mem_detector {cfg : Config} {e : Edit} {p : String}
    {o n : Value} (hr : DiffResult.Modified p o n ∈ classifyOne cfg e) :
    pathDetector cfg p = none := by
  cases e with
  | added q v => simp [classifyOne] at hr
  | removed q v => simp [classifyOne] at hr
  | unchanged q => simp [classifyOne] at hr
  | tensorShapeChanged q a b => simp [classifyOne] at hr
  | tensorStatsChanged q a b => simp [classifyOne] at hr
  | tensorDataChanged q m =>
      simp only [classifyOne] at hr
      split at hr
      · split at hr <;> simp at hr
      · simp at hr
  | modified q o' n' =>
      simp only [classifyOne] at hr
      split at hr <;>
        first
        | (rename_i heq
           split at hr
           · split at hr
             · split at hr <;> simp at hr
             · simp at hr
               obtain ⟨rfl, -⟩ := hr
               exact heq
           · simp at hr
             obtain ⟨rfl, -⟩ := hr
             exact heq)
        | simp at hr

/-- C5: whenever the name-based ML path-pattern classifier produces a
specific-kind record (LearningRateChanged, OptimizerChanged, LossChange,
AccuracyChange, ModelArchitectureChanged) at a path, the output contains
no generic `Modified` record at that same path — the specific kind
replaces the generic kind, never accompanying it. -/
theorem specific_replaces_generic_c5 (cfg : Config) (old new : Value)
    (p : String) (h : ∃ r ∈ diffCore cfg old new, specificAt p r = true) :
    ∀ o n, DiffResult.Modified p o n ∉ diffCore cfg old new := by
  obtain ⟨r, hr, hs⟩ := h
  intro o n hmem
  rw [diffCore, classifyAll] at hr hmem
  obtain ⟨l, hl, hrl⟩ := List.mem_flatten.mp hr
  obtain ⟨e, -, rfl⟩ := List.mem_map.mp hl
  obtain ⟨l', hl', hml⟩ := List.mem_flatten.mp hmem
  obtain ⟨e', -, rfl⟩ := List.mem_map.mp hl'
  exact specific_mem_detector hrl hs (modified_mem_detector hml)

/-- Configuration with learning-rate tracking on, used to exhibit the
classifier's replacement behavior on a concrete run. -/
def cfgLR : Config :=
  buildConfig { learning_rate_tracking := true } none TensorMode.both "diffai"
    defaultEpsilon none

theorem specific_replaces_generic_c5_witness :
    (∃ r ∈ diffCore cfgLR (.map [("learning_rate", .num (mkRat 1 1000))])
        (.map [("learning_rate", .num (mkRat 1 100))]),
      specificAt "learning_rate" r = true) ∧
    ∀ o n, DiffResult.Modified "learning_rate" o n ∉
      diffCore cfgLR (.map [("learning_rate", .num (mkRat 1 1000))])
        (.map [("learning_rate", .num (mkRat 1 100))]) :=
  ⟨⟨.LearningRateChanged "learning_rate" (.num (mkRat 1 1000)) (.num (mkRat 1 100)),
    List.Mem.head _, rfl⟩,
   specific_replaces_generic_c5 cfgLR _ _ "learning_rate"
     ⟨.LearningRateChanged "learning_rate" (.num (mkRat 1 1000)) (.num (mkRat 1 100)),
      List.Mem.head _, rfl⟩⟩

/-! ## Well-formed values and reflexivity machinery -/

/-- Key uniqueness within one mapping level (the spec's invariant that
keys are unique within a mapping). -/
def keysNodup : List (String × Value) → Bool
  | [] => true
  | kv :: r => !(hasKey kv.1 r) && keysNodup r

mutual
/-- A well-formed value: every mapping in the tree has unique keys. -/
def wfV : Value → Bool
  | .null => true
  | .bool _ => true
  | .num _ => true
  | .str _ => true
  | .tensor _ _ _ => true
  | .seq xs => wfL xs
  | .map kvs => keysNodup kvs && wfK kvs

def wfL : List Value → Bool
  | [] => true
  | v :: r => wfV v && wfL r

def wfK : List (String × Value) → Bool
  | [] => true
  | kv :: r => wfV kv.2 && wfK r
end

theorem wfL_mem {xs : List Value} (h : wfL xs = true) {v : Value}
    (hv : v ∈ xs) : wfV v = true := by
  induction xs with
  | nil => cases hv
  | cons a r ih =>
    rw [wfL, Bool.and_eq_true] at h
    cases hv with
    | head => exact h.1
    | tail b hv => exact ih h.2 hv

theorem wfK_mem {kvs : List (String × Value)} (h : wfK kvs = true)
    {kv : String × Value} (hv : kv ∈ kvs) : wfV kv.2 = true := by
  induction kvs with
  | nil => cases hv
  | cons a r ih =>
    rw [wfK, Bool.and_eq_true] at h
    cases hv with
    | head => exact h.1
    | tail b hv => exact ih h.2 hv

theorem mem_hasKey {k : String} {v : Value} {kvs : List (String × Value)}
    (h : (k, v) ∈ kvs) : hasKey k kvs = true := by
  induction kvs with
  | nil => cases h
  | cons a r ih =>
    cases h with
    | head => simp [hasKey, lookupKV]
    | tail b h =>
      rw [hasKey, lookupKV]
      split
      · simp
      · exact ih h

theorem lookupKV_nodup {kvs : List (String × Value)}
    (hnd : keysNodup kvs = true) {k : String} {v : Value}
    (h : (k, v) ∈ kvs) : lookupKV k kvs = some v := by
  induction kvs with
  | nil => cases h
  | cons a r ih =>
    rw [keysNodup, Bool.and_eq_true, Bool.not_eq_true'] at hnd
    cases h with
    | head => simp [lookupKV]
    | tail b h =>
      rw [lookupKV]
      split
      · rename_i heq
        rw [heq] at hnd
        exact absurd (mem_hasKey h) (by simp [hnd.1])
      · exact ih hnd.2 h

theorem effEps_nonneg {cfg : Config} (h : 0 ≤ cfg.epsilon) :
    0 ≤ effEps cfg := by
  rw [effEps]
  split
  · exact le_refl 0
  · exact h

theorem rle_zero {e : Rat} (h : 0 ≤ e) : rle 0 e = true :=
  (rle_iff 0 e).mpr h

theorem rlt_zero_false {e : Rat} (h : 0 ≤ e) : rlt e 0 = false := by
  rw [← Bool.not_eq_true, rlt_iff]
  exact not_lt_of_le h

theorem rmax_self_zero : rmax 0 0 = 0 := by
  rw [rmax]
  split <;> rfl

theorem maxAbsDiff_self (xs : List Rat) : maxAbsDiff xs xs = 0 := by
  induction xs with
  | nil => rfl
  | cons a r ih =>
    rw [maxAbsDiff] at ih ⊢
    simp only [List.zip_cons_cons, List.foldr_cons, ih, absDiff_self,
      rmax_self_zero]

theorem statsDiffer_self {cfg : Config} (h : 0 ≤ effEps cfg)
    (s : Statistics) : statsDiffer cfg s s = false := by
  simp [statsDiffer, absDiff_self, rlt_zero_false h]

theorem diffV_refl (cfg : Config) (heps : 0 ≤ effEps cfg)
    (hsu : cfg.show_unchanged = false) :
    ∀ fuel p v, wfV v = true → diffV cfg fuel p v v = [] := by
  intro fuel
  induction fuel with
  | zero => intro p v _; rfl
  | succ n ih =>
    intro p v hwf
    cases v with
    | null => simp [diffV, leafEdits, hsu]
    | bool b => simp [diffV, leafEdits, hsu]
    | num q => simp [diffV, leafEdits, hsu, absDiff_self, rle_zero heps]
    | str s => simp [diffV, leafEdits, hsu]
    | tensor s dt d =>
      cases d with
      | raw xs =>
        simp [diffV, diffTensor, maxAbsDiff_self, rlt_zero_false heps, ite_self]
      | stats st =>
        simp [diffV, diffTensor, statsDiffer_self heps, ite_self]
    | seq xs =>
      rw [wfV] at hwf
      rw [diffV, List.flatten_eq_nil_iff]
      intro s hs
      obtain ⟨i, hi, rfl⟩ := List.mem_map.mp hs
      cases h : xs[i]? with
      | none => simp [h]
      | some a =>
        have ha : a ∈ xs := by
          obtain ⟨hlt, rfl⟩ := List.getElem?_eq_some_iff.mp h
          exact List.getElem_mem hlt
        simp only [h]
        exact ih _ a (wfL_mem hwf ha)
    | map kvs =>
      rw [wfV, Bool.and_eq_true] at hwf
      rw [diffV]
      refine List.append_eq_nil.mpr ⟨?_, ?_⟩
      · rw [List.flatten_eq_nil_iff]
        intro s hs
        obtain ⟨kv, hkv, rfl⟩ := List.mem_map.mp hs
        by_cases hig : ignoredKey cfg kv.1 = true
        · simp [hig]
        · have hkv' : (kv.1, kv.2) ∈ kvs := by simpa using hkv
          simp only [hig, Bool.false_eq_true, if_false,
            lookupKV_nodup hwf.1 hkv']
          exact ih _ kv.2 (wfK_mem hwf.2 hkv)
      · rw [List.map_eq_nil_iff, List.filter_eq_nil_iff]
        intro kv hkv
        have hkv' : (kv.1, kv.2) ∈ kvs := by simpa using hkv
        simp [mem_hasKey hkv']

theorem validate_ok_basic {raw : DiffOptions} {cfg : Config}
    (h : validateOptions raw = .ok cfg) :
    0 ≤ cfg.epsilon ∧ cfg.show_unchanged = raw.show_unchanged := by
  unfold validateOptions validateMode validateFormat validateEpsilon
    validateThreshold at h
  repeat' split at h
  all_goals simp only [Except.ok.injEq, reduceCtorEq] at h
  all_goals first
    | exact absurd h (by simp)
    | (subst h
       refine ⟨?_, rfl⟩
       simp only [buildConfig]
       first
        | decide
        | (simp only [rlt_iff] at *
           exact le_of_not_lt (by assumption)))

/-- C8: comparing any well-formed value against itself with validated
options and `show_unchanged` off yields the empty result list — no
self-differences. -/
theorem diff_reflexive_c8 (x : Value) (raw : DiffOptions) (cfg : Config)
    (hv : validateOptions raw = .ok cfg) (hsu : raw.show_unchanged = false)
    (hwf : wfV x = true) : diff x x raw = .ok [] := by
  obtain ⟨heps, hshow⟩ := validate_ok_basic hv
  have hd : diffCore cfg x x = [] := by
    unfold diffCore
    rw [diffV_refl cfg (effEps_nonneg heps) (hshow.trans hsu) _ _ x hwf]
    rfl
  simp [diff, hv, hd]

theorem diff_reflexive_c8_witness :
    validateOptions {} = .ok defaultConfig ∧
    DiffOptions.show_unchanged {} = false ∧
    wfV (.map [("name", .str "Alice"),
               ("scores", .seq [.num (mkRat 1 2), .num 3])]) = true ∧
    diff (.map [("name", .str "Alice"),
               ("scores", .seq [.num (mkRat 1 2), .num 3])])
         (.map [("name", .str "Alice"),
               ("scores", .seq [.num (mkRat 1 2), .num 3])]) {} = .ok [] :=
  ⟨rfl, rfl, rfl,
   diff_reflexive_c8 _ {} defaultConfig rfl rfl rfl⟩

theorem diffV_ignored (cfg : Config) (heps : 0 ≤ effEps cfg)
    (hsu : cfg.show_unchanged = false) (fuel : Nat) (p : String)
    (olds news : List (String × Value))
    (hnn : keysNodup news = true) (hwo : wfK olds = true)
    (hfil : olds.filter (fun kv => !(ignoredKey cfg kv.1)) =
            news.filter (fun kv => !(ignoredKey cfg kv.1))) :
    diffV cfg (fuel + 1) p (.map olds) (.map news) = [] := by
  rw [diffV]
  refine List.append_eq_nil.mpr ⟨?_, ?_⟩
  · rw [List.flatten_eq_nil_iff]
    intro s hs
    obtain ⟨kv, hkv, rfl⟩ := List.mem_map.mp hs
    by_cases hig : ignoredKey cfg kv.1 = true
    · simp [hig]
    · have hmemf : kv ∈ news.filter (fun kv => !(ignoredKey cfg kv.1)) := by
        rw [← hfil]
        exact List.mem_filter.mpr ⟨hkv, by simp [hig]⟩
      have hmemn : (kv.1, kv.2) ∈ news := by
        simpa using (List.mem_filter.mp hmemf).1
      simp only [hig, Bool.false_eq_true, if_false, lookupKV_nodup hnn hmemn]
      exact diffV_refl cfg heps hsu fuel _ kv.2 (wfK_mem hwo hkv)
  · rw [List.map_eq_nil_iff, List.filter_eq_nil_iff]
    intro kv hkv
    by_cases hig : ignoredKey cfg kv.1 = true
    · simp [hig]
    · have hmemf : kv ∈ news.filter (fun kv => !(ignoredKey cfg kv.1)) :=
        List.mem_filter.mpr ⟨hkv, by simp [hig]⟩
      rw [← hfil] at hmemf
      have holds : (kv.1, kv.2) ∈ olds := by
        simpa using (List.mem_filter.mp hmemf).1
      simp [hig, mem_hasKey holds]

/-- C7: if two mappings differ only in fields whose keys match
`ignore_keys_regex` (their non-matching entries are identical), `diff`
returns the empty sequence — matched keys are skipped entirely and
contribute no result records of any kind. -/
theorem ignore_keys_skipped_c7 (raw : DiffOptions) (cfg : Config)
    (olds news : List (String × Value))
    (hv : validateOptions raw = .ok cfg)
    (hsu : raw.show_unchanged = false)
    (hwo : wfV (.map olds) = true) (hwn : wfV (.map news) = true)
    (hfil : olds.filter (fun kv => !(ignoredKey cfg kv.1)) =
            news.filter (fun kv => !(ignoredKey cfg kv.1))) :
    diff (.map olds) (.map news) raw = .ok [] := by
  obtain ⟨heps, hshow⟩ := validate_ok_basic hv
  rw [wfV, Bool.and_eq_true] at hwo hwn
  have hd : diffCore cfg (.map olds) (.map news) = [] := by
    unfold diffCore
    obtain ⟨k, hk⟩ : ∃ k, vsize (Value.map olds) + vsize (Value.map news) =
        k + 1 := by
      refine ⟨vsize (Value.map olds) + vsize (Value.map news) - 1, ?_⟩
      have h1 : vsize (Value.map olds) = 1 + ksize olds := rfl
      omega
    rw [hk, diffV_ignored cfg (effEps_nonneg heps) (hshow.trans hsu) k ""
      olds news hwn.1 hwo.2 hfil]
    rfl
  simp [diff, hv, hd]

/-- Options that ignore keys matching "timestamp". -/
def rawIgnore : DiffOptions := { ignore_keys_regex := some "timestamp" }

/-- The validated configuration for `rawIgnore`. -/
def cfgIgnore : Config :=
  buildConfig rawIgnore (some "timestamp") TensorMode.both "diffai"
    defaultEpsilon none

theorem ignore_keys_skipped_c7_witness :
    validateOptions rawIgnore = .ok cfgIgnore ∧
    rawIgnore.show_unchanged = false ∧
    wfV (.map [("timestamp", .num 1), ("a", .num 2)]) = true ∧
    wfV (.map [("timestamp", .num 9), ("a", .num 2)]) = true ∧
    ([("timestamp", Value.num 1), ("a", Value.num 2)].filter
        (fun kv => !(ignoredKey cfgIgnore kv.1)) =
      [("timestamp", Value.num 9), ("a", Value.num 2)].filter
        (fun kv => !(ignoredKey cfgIgnore kv.1))) ∧
    diff (.map [("timestamp", .num 1), ("a", .num 2)])
         (.map [("timestamp", .num 9), ("a", .num 2)]) rawIgnore = .ok [] :=
  ⟨rfl, rfl, rfl, rfl, rfl,
   ignore_keys_skipped_c7 rawIgnore cfgIgnore _ _ rfl rfl rfl rfl rfl⟩

/-! ## Added/Removed mirror symmetry machinery -/

theorem lookupKV_mem {k : String} {kvs : List (String × Value)} {v : Value}
    (h : lookupKV k kvs = some v) : (k, v) ∈ kvs := by
  induction kvs with
  | nil => simp [lookupKV] at h
  | cons a r ih =>
    rw [lookupKV] at h
    split at h
    · rename_i heq
      obtain rfl := Option.some.inj h
      rw [← heq]
      exact List.Mem.head _
    · exact List.Mem.tail _ (ih h)

theorem hasKey_false_lookup {k : String} {kvs : List (String × Value)}
    (h : hasKey k kvs = false) : lookupKV k kvs = none := by
  rw [hasKey] at h
  cases hl : lookupKV k kvs with
  | none => rfl
  | some v => rw [hl] at h; simp at h

theorem mem_leafEdits {cfg : Config} {p : String} {s e : Bool} {o n : Value}
    {x : Edit} (h : x ∈ leafEdits cfg p s e o n) :
    x = .modified p o n ∨ x = .unchanged p := by
  rw [leafEdits] at h
  split at h
  · split at h
    · exact Or.inr (by simpa using h)
    · simp at h
  · exact Or.inl (by simpa using h)

theorem diffTensor_no_added {cfg : Config} {p : String} {s1 s2 : List Nat}
    {dt1 dt2 : String} {d1 d2 : TData} {q : String} {u : Value} :
    Edit.added q u ∉ diffTensor cfg p s1 dt1 d1 s2 dt2 d2 := by
  intro h
  cases d1 <;> cases d2 <;> rw [diffTensor] at h <;>
    first
    | (split at h <;>
        first
        | simp at h
        | (split at h <;>
            first
            | simp at h
            | (split at h <;> simp at h)))
    | (intros; simp_all; done)

theorem diffTensor_no_removed {cfg : Config} {p : String} {s1 s2 : List Nat}
    {dt1 dt2 : String} {d1 d2 : TData} {q : String} {u : Value} :
    Edit.removed q u ∉ diffTensor cfg p s1 dt1 d1 s2 dt2 d2 := by
  intro h
  cases d1 <;> cases d2 <;> rw [diffTensor] at h <;>
    first
    | (split at h <;>
        first
        | simp at h
        | (split at h <;>
            first
            | simp at h
            | (split at h <;> simp at h)))
    | (intros; simp_all; done)

theorem lt_max_comm {i a b : Nat} (h : i < nmax a b) : i < nmax b a := by
  rw [nmax] at h ⊢
  split at h <;> split <;> omega

theorem diffV_added_removed (cfg : Config) :
    ∀ fuel p v w q u, wfV v = true → wfV w = true →
      Edit.added q u ∈ diffV cfg fuel p v w →
      ∃ u', Edit.removed q u' ∈ diffV cfg fuel p w v := by
  intro fuel
  induction fuel with
  | zero => intro p v w q u _ _ h; simp [diffV] at h
  | succ n ih =>
    intro p v w q u hwv hww h
    cases v <;> cases w
    case seq.seq xs ys =>
      rw [wfV] at hwv hww
      rw [diffV] at h
      obtain ⟨s, hs, hu⟩ := List.mem_flatten.mp h
      obtain ⟨i, hi, rfl⟩ := List.mem_map.mp hs
      rw [List.mem_range] at hi
      cases hx : xs[i]? with
      | none =>
        cases hy : ys[i]? with
        | none => rw [hx, hy] at hu; simp at hu
        | some b =>
          rw [hx, hy] at hu
          simp at hu
          obtain ⟨rfl, rfl⟩ := hu
          refine ⟨u, ?_⟩
          rw [diffV]
          refine List.mem_flatten.mpr ⟨_, List.mem_map.mpr
            ⟨i, List.mem_range.mpr (lt_max_comm hi), rfl⟩, ?_⟩
          rw [hy, hx]
          exact List.Mem.head _
      | some a =>
        cases hy : ys[i]? with
        | none => rw [hx, hy] at hu; simp at hu
        | some b =>
          rw [hx, hy] at hu
          have hwa : wfV a = true :=
            wfL_mem hwv (by
              obtain ⟨hlt, rfl⟩ := List.getElem?_eq_some_iff.mp hx
              exact List.getElem_mem hlt)
          have hwb : wfV b = true :=
            wfL_mem hww (by
              obtain ⟨hlt, rfl⟩ := List.getElem?_eq_some_iff.mp hy
              exact List.getElem_mem hlt)
          obtain ⟨u', hr⟩ := ih (idxPath p i) a b q u hwa hwb hu
          refine ⟨u', ?_⟩
          rw [diffV]
          refine List.mem_flatten.mpr ⟨_, List.mem_map.mpr
            ⟨i, List.mem_range.mpr (lt_max_comm hi), rfl⟩, ?_⟩
          rw [hy, hx]
          exact hr
    case map.map a b =>
      rw [wfV, Bool.and_eq_true] at hwv hww
      rw [diffV] at h
      rcases List.mem_append.mp h with h | h
      · obtain ⟨s, hs, hu⟩ := List.mem_flatten.mp h
        obtain ⟨kv, hkv, rfl⟩ := List.mem_map.mp hs
        by_cases hig : ignoredKey cfg kv.1 = true
        · rw [if_pos hig] at hu; simp at hu
        · have hig' : ignoredKey cfg kv.1 = false := by simpa using hig
          rw [hig'] at hu
          simp only [Bool.false_eq_true, if_false] at hu
          cases hl : lookupKV kv.1 b with
          | none => rw [hl] at hu; simp at hu
          | some w' =>
            rw [hl] at hu
            have hwkv : wfV kv.2 = true := wfK_mem hwv.2 hkv
            have hmem_b : (kv.1, w') ∈ b := lookupKV_mem hl
            have hww' : wfV w' = true := wfK_mem hww.2 hmem_b
            obtain ⟨u', hr⟩ := ih (joinPath p kv.1) kv.2 w' q u hwkv hww' hu
            refine ⟨u', ?_⟩
            rw [diffV]
            refine List.mem_append.mpr (Or.inl (List.mem_flatten.mpr
              ⟨_, List.mem_map.mpr ⟨(kv.1, w'), hmem_b, rfl⟩, ?_⟩))
            have hla : lookupKV kv.1 a = some kv.2 :=
              lookupKV_nodup hwv.1 (by simpa using hkv)
            simp only [hig', Bool.false_eq_true, if_false, hla]
            exact hr
      · obtain ⟨kv, hkv, heq⟩ := List.mem_map.mp h
        obtain ⟨hkmem, hcond⟩ := List.mem_filter.mp hkv
        rw [Bool.and_eq_true, Bool.not_eq_true', Bool.not_eq_true'] at hcond
        injection heq with h1 h2
        subst h1
        subst h2
        refine ⟨kv.2, ?_⟩
        rw [diffV]
        refine List.mem_append.mpr (Or.inl (List.mem_flatten.mpr
          ⟨_, List.mem_map.mpr ⟨kv, hkmem, rfl⟩, ?_⟩))
        simp only [hcond.1, Bool.false_eq_true, if_false,
          hasKey_false_lookup hcond.2]
        exact List.Mem.head _
    all_goals rw [diffV] at h
    all_goals first
      | (intros; simp_all; done)
      | (rcases mem_leafEdits h with h' | h' <;> simp at h')
      | exact absurd h diffTensor_no_added

theorem diffV_removed_added (cfg : Config) :
    ∀ fuel p v w q u, wfV v = true → wfV w = true →
      Edit.removed q u ∈ diffV cfg fuel p v w →
      ∃ u', Edit.added q u' ∈ diffV cfg fuel p w v := by
  intro fuel
  induction fuel with
  | zero => intro p v w q u _ _ h; simp [diffV] at h
  | succ n ih =>
    intro p v w q u hwv hww h
    cases v <;> cases w
    case seq.seq xs ys =>
      rw [wfV] at hwv hww
      rw [diffV] at h
      obtain ⟨s, hs, hu⟩ := List.mem_flatten.mp h
      obtain ⟨i, hi, rfl⟩ := List.mem_map.mp hs
      rw [List.mem_range] at hi
      cases hx : xs[i]? with
      | none =>
        cases hy : ys[i]? with
        | none => rw [hx, hy] at hu; simp at hu
        | some b => rw [hx, hy] at hu; simp at hu
      | some a =>
        cases hy : ys[i]? with
        | none =>
          rw [hx, hy] at hu
          simp at hu
          obtain ⟨rfl, rfl⟩ := hu
          refine ⟨u, ?_⟩
          rw [diffV]
          refine List.mem_flatten.mpr ⟨_, List.mem_map.mpr
            ⟨i, List.mem_range.mpr (lt_max_comm hi), rfl⟩, ?_⟩
          rw [hy, hx]
          exact List.Mem.head _
        | some b =>
          rw [hx, hy] at hu
          have hwa : wfV a = true :=
            wfL_mem hwv (by
              obtain ⟨hlt, rfl⟩ := List.getElem?_eq_some_iff.mp hx
              exact List.getElem_mem hlt)
          have hwb : wfV b = true :=
            wfL_mem hww (by
              obtain ⟨hlt, rfl⟩ := List.getElem?_eq_some_iff.mp hy
              exact List.getElem_mem hlt)
          obtain ⟨u', hr⟩ := ih (idxPath p i) a b q u hwa hwb hu
          refine ⟨u', ?_⟩
          rw [diffV]
          refine List.mem_flatten.mpr ⟨_, List.mem_map.mpr
            ⟨i, List.mem_range.mpr (lt_max_comm hi), rfl⟩, ?_⟩
          rw [hy, hx]
          exact hr
    case map.map a b =>
      rw [wfV, Bool.and_eq_true] at hwv hww
      rw [diffV] at h
      rcases List.mem_append.mp h with h | h
      · obtain ⟨s, hs, hu⟩ := List.mem_flatten.mp h
        obtain ⟨kv, hkv, rfl⟩ := List.mem_map.mp hs
        by_cases hig : ignoredKey cfg kv.1 = true
        · rw [if_pos hig] at hu; simp at hu
        · have hig' : ignoredKey cfg kv.1 = false := by simpa using hig
          rw [hig'] at hu
          simp only [Bool.false_eq_true, if_false] at hu
          cases hl : lookupKV kv.1 b with
          | none =>
            rw [hl] at hu
            simp at hu
            obtain ⟨rfl, rfl⟩ := hu
            refine ⟨kv.2, ?_⟩
            rw [diffV]
            refine List.mem_append.mpr (Or.inr ?_)
            refine List.mem_map.mpr ⟨(kv.1, kv.2), ?_, rfl⟩
            refine List.mem_filter.mpr ⟨by simpa using hkv, ?_⟩
            have hhk : hasKey kv.1 b = false := by
              rw [hasKey, hl]; rfl
            simp [hig', hhk]
          | some w' =>
            rw [hl] at hu
            have hwkv : wfV kv.2 = true := wfK_mem hwv.2 hkv
            have hmem_b : (kv.1, w') ∈ b := lookupKV_mem hl
            have hww' : wfV w' = true := wfK_mem hww.2 hmem_b
            obtain ⟨u', hr⟩ := ih (joinPath p kv.1) kv.2 w' q u hwkv hww' hu
            refine ⟨u', ?_⟩
            rw [diffV]
            refine List.mem_append.mpr (Or.inl (List.mem_flatten.mpr
              ⟨_, List.mem_map.mpr ⟨(kv.1, w'), hmem_b, rfl⟩, ?_⟩))
            have hla : lookupKV kv.1 a = some kv.2 :=
              lookupKV_nodup hwv.1 (by simpa using hkv)
            simp only [hig', Bool.false_eq_true, if_false, hla]
            exact hr
      · obtain ⟨kv, hkv, heq⟩ := List.mem_map.mp h
        simp at heq
    all_goals rw [diffV] at h
    all_goals first
      | (intros; simp_all; done)
      | (rcases mem_leafEdits h with h' | h' <;> simp at h')
      | exact absurd h diffTensor_no_removed

/-- C9: for every pair of well-formed inputs and validated options,
`diff a b` reports an `Added` record at a path if and only if
`diff b a` reports a `Removed` record at that same path. -/
theorem added_removed_symmetry_c9 (raw : DiffOptions) (cfg : Config)
    (a b : Value) (p : String) (hv : validateOptions raw = .ok cfg)
    (hwa : wfV a = true) (hwb : wfV b = true) :
    ∃ r1 r2, diff a b raw = .ok r1 ∧ diff b a raw = .ok r2 ∧
      ((∃ v, DiffResult.Added p v ∈ r1) ↔
       (∃ v, DiffResult.Removed p v ∈ r2)) := by
  refine ⟨diffCore cfg a b, diffCore cfg b a,
    by simp [diff, hv], by simp [diff, hv], ?_⟩
  constructor
  · rintro ⟨v, hm⟩
    unfold diffCore at hm
    rw [mem_classifyAll_added] at hm
    obtain ⟨u', hr⟩ := diffV_added_removed cfg _ "" a b p v hwa hwb hm
    refine ⟨u', ?_⟩
    unfold diffCore
    rw [mem_classifyAll_removed, Nat.add_comm (vsize b) (vsize a)]
    exact hr
  · rintro ⟨v, hm⟩
    unfold diffCore at hm
    rw [mem_classifyAll_removed] at hm
    obtain ⟨u', hr⟩ := diffV_removed_added cfg _ "" b a p v hwb hwa hm
    refine ⟨u', ?_⟩
    unfold diffCore
    rw [mem_classifyAll_added, Nat.add_comm (vsize a) (vsize b)]
    exact hr

theorem added_removed_symmetry_c9_witness :
    validateOptions {} = .ok defaultConfig ∧
    wfV (.map []) = true ∧
    wfV (.map [("x", .num 1)]) = true ∧
    ∃ r1 r2, diff (.map []) (.map [("x", .num 1)]) {} = .ok r1 ∧
      diff (.map [("x", .num 1)]) (.map []) {} = .ok r2 ∧
      ((∃ v, DiffResult.Added "x" v ∈ r1) ↔
       (∃ v, DiffResult.Removed "x" v ∈ r2)) :=
  ⟨rfl, rfl, rfl,
   added_removed_symmetry_c9 {} defaultConfig _ _ "x" rfl rfl rfl⟩

/-! ## Epsilon antitonicity machinery -/

theorem classifyAll_append (cfg : Config) (a b : List Edit) :
    classifyAll cfg (a ++ b) = classifyAll cfg a ++ classifyAll cfg b := by
  simp [classifyAll]

theorem classifyAll_flatten_len (cfg : Config) (L : List (List Edit)) :
    (classifyAll cfg L.flatten).length =
      (L.map (fun l => (classifyAll cfg l).length)).sum := by
  induction L with
  | nil => rfl
  | cons a t ih =>
    rw [List.flatten_cons, classifyAll_append, List.length_append, ih,
      List.map_cons, List.sum_cons]

theorem rle_trans_false {x e0 e1 : Rat} (h01 : e0 ≤ e1)
    (h1 : rle x e1 = false) : rle x e0 = false := by
  cases h0 : rle x e0 with
  | false => rfl
  | true =>
    exfalso
    have := (rle_iff x e0).mp h0
    have : rle x e1 = true := (rle_iff x e1).mpr (le_trans this h01)
    simp [this] at h1

theorem rlt_mono {m e0 e1 : Rat} (h01 : e0 ≤ e1) (h1 : rlt e1 m = true) :
    rlt e0 m = true :=
  (rlt_iff e0 m).mpr (lt_of_le_of_lt h01 ((rlt_iff e1 m).mp h1))

theorem statsDiffer_mono {cfg0 cfg1 : Config}
    (h01 : effEps cfg0 ≤ effEps cfg1) {a b : Statistics}
    (h : statsDiffer cfg1 a b = true) : statsDiffer cfg0 a b = true := by
  rw [statsDiffer] at h ⊢
  simp only [Bool.or_eq_true] at h ⊢
  rcases h with ((((h | h) | h) | h) | h) | h
  · exact Or.inl (Or.inl (Or.inl (Or.inl (Or.inl (rlt_mono h01 h)))))
  · exact Or.inl (Or.inl (Or.inl (Or.inl (Or.inr (rlt_mono h01 h)))))
  · exact Or.inl (Or.inl (Or.inl (Or.inr (rlt_mono h01 h))))
  · exact Or.inl (Or.inl (Or.inr (rlt_mono h01 h)))
  · exact Or.inl (Or.inr (rlt_mono h01 h))
  · exact Or.inr h

theorem leafEdits_congr {cfg0 cfg1 : Config}
    (hsu : cfg1.show_unchanged = cfg0.show_unchanged) :
    leafEdits cfg1 = leafEdits cfg0 := by
  funext p s e o n
  rw [leafEdits, leafEdits, hsu]

theorem diffV_antitone (cfg0 cfg1 : Config)
    (hcl : classifyOne cfg1 = classifyOne cfg0)
    (hik : ignoredKey cfg1 = ignoredKey cfg0)
    (hsu : cfg1.show_unchanged = cfg0.show_unchanged)
    (hmode : cfg1.tensor_comparison_mode = cfg0.tensor_comparison_mode)
    (heps0 : 0 ≤ effEps cfg0) (heps : effEps cfg0 ≤ effEps cfg1) :
    ∀ fuel p v w,
      (classifyAll cfg1 (diffV cfg1 fuel p v w)).length ≤
      (classifyAll cfg0 (diffV cfg0 fuel p v w)).length := by
  have hca : classifyAll cfg1 = classifyAll cfg0 := by
    funext es
    rw [classifyAll, classifyAll, hcl]
  intro fuel
  induction fuel with
  | zero => intro p v w; simp [diffV, classifyAll]
  | succ n ih =>
    simp only [hca] at ih
    intro p v w
    cases v <;> cases w
    case num.num a b =>
      simp only [diffV, hca, leafEdits_congr hsu]
      by_cases hab : a = b
      · subst hab
        rw [absDiff_self, rle_zero heps0, rle_zero (le_trans heps0 heps)]
      · cases h1 : rle (absDiff a b) (effEps cfg1) with
        | false => rw [rle_trans_false heps h1]
        | true =>
          have hd : decide (a = b) = false := by simp [hab]
          simp [leafEdits, hd, classifyAll]
    case seq.seq xs ys =>
      simp only [diffV, hca]
      rw [classifyAll_flatten_len, classifyAll_flatten_len, List.map_map,
        List.map_map]
      refine List.sum_le_sum ?_
      intro i hi
      simp only [Function.comp_apply]
      cases hx : xs[i]? <;> cases hy : ys[i]? <;> simp only [hx, hy]
      · exact le_refl _
      · exact le_refl _
      · exact le_refl _
      · exact ih _ _ _
    case map.map a b =>
      simp only [diffV, hca, hik]
      rw [classifyAll_append, classifyAll_append, List.length_append,
        List.length_append]
      refine Nat.add_le_add ?_ (le_refl _)
      rw [classifyAll_flatten_len, classifyAll_flatten_len, List.map_map,
        List.map_map]
      refine List.sum_le_sum ?_
      intro kv hkv
      simp only [Function.comp_apply]
      by_cases hig : ignoredKey cfg0 kv.1 = true
      · simp [hig]
      · have hig' : ignoredKey cfg0 kv.1 = false := by simpa using hig
        simp only [hig', Bool.false_eq_true, if_false]
        cases hl : lookupKV kv.1 b <;> simp only [hl]
        · exact le_refl _
        · exact ih _ _ _
    case tensor.tensor s1 dt1 d1 s2 dt2 d2 =>
      simp only [diffV, hca, diffTensor, hmode]
      by_cases hsh : s1 ≠ s2
      · simp [hsh]
      · rw [if_neg hsh, if_neg hsh]
        split
        · exact le_refl _
        · cases d1 <;> cases d2 <;> dsimp only
          · rename_i xs ys
            cases h1 : rlt (effEps cfg1) (maxAbsDiff xs ys) with
            | false => simp [classifyAll]
            | true => rw [rlt_mono heps h1]
          · exact le_refl _
          · exact le_refl _
          · rename_i st1 st2
            cases h1 : statsDiffer cfg1 st1 st2 with
            | false => simp [classifyAll]
            | true => rw [statsDiffer_mono heps h1]
    all_goals ((try simp only [diffV, hca, leafEdits_congr hsu]); exact le_refl _)

/-- C10: with fixed inputs and otherwise identical options (the two
option bags validate to configurations that agree everywhere except
epsilon), the number of result records returned by `diff` is antitone
in epsilon: the call with the larger epsilon returns at most as many
results as the call with the smaller one. -/
theorem epsilon_antitone_c10 (raw raw' : DiffOptions) (cfg : Config)
    (old new : Value) (e e' : Rat) (he : 0 ≤ e) (hee : e ≤ e')
    (hv : validateOptions raw = .ok {cfg with epsilon := e})
    (hv' : validateOptions raw' = .ok {cfg with epsilon := e'}) :
    ∃ r r', diff old new raw = .ok r ∧ diff old new raw' = .ok r' ∧
      r'.length ≤ r.length := by
  refine ⟨diffCore {cfg with epsilon := e} old new,
    diffCore {cfg with epsilon := e'} old new,
    by simp [diff, hv], by simp [diff, hv'], ?_⟩
  have heff : ∀ x : Rat, effEps {cfg with epsilon := x} =
      if cfg.scientific_precision then 0 else x := fun _ => rfl
  have h0 : 0 ≤ effEps {cfg with epsilon := e} := by
    rw [heff]
    split
    · exact le_refl 0
    · exact he
  have h01 : effEps {cfg with epsilon := e} ≤ effEps {cfg with epsilon := e'} := by
    rw [heff, heff]
    split
    · exact le_refl 0
    · exact hee
  unfold diffCore
  exact diffV_antitone {cfg with epsilon := e} {cfg with epsilon := e'}
    rfl rfl rfl rfl h0 h01 _ "" old new

theorem epsilon_antitone_c10_witness :
    ((0:Rat) ≤ mkRat 1 1000) ∧ (mkRat 1 1000 ≤ mkRat 1 2) ∧
    validateOptions { epsilon := some (mkRat 1 1000) } =
      .ok { defaultConfig with epsilon := mkRat 1 1000 } ∧
    validateOptions { epsilon := some (mkRat 1 2) } =
      .ok { defaultConfig with epsilon := mkRat 1 2 } ∧
    ∃ r r', diff (.map [("a", .num 0)]) (.map [("a", .num (mkRat 1 10))])
        { epsilon := some (mkRat 1 1000) } = .ok r ∧
      diff (.map [("a", .num 0)]) (.map [("a", .num (mkRat 1 10))])
        { epsilon := some (mkRat 1 2) } = .ok r' ∧
      r'.length ≤ r.length :=
  ⟨by decide, by decide, rfl, rfl,
   epsilon_antitone_c10 _ _ defaultConfig _ _ _ _ (by decide) (by decide)
     rfl rfl⟩

end Diffai
